import Mathlib

/-!
# Verification of the workout-playlist curation core

Shallow embedding of the anti-repetition selection algorithm of the
Spotify/YouTube workout-playlist generator.  Timestamps are rationals
(seconds), Python floats are modelled as rationals, and the `random`
perturbations of the source are passed in explicitly (a jitter value per
track, a shuffle function quantified to be a permutation).

The definitions are direct translations of:
* `src/services/spotify_curator.py`  (`SpotifyCurator`)
* `src/services/youtube_curator.py`  (`YouTubeCurator`)
* `src/services/spotify_discovery.py` / `src/services/youtube_discovery.py`
* `src/enhanced_curator.py` (record semantics shared with the Spotify store)
-/

/-- Python `str.strip()`: drop whitespace from both ends (computed on the
character list so that concrete examples evaluate in the kernel). -/
def pyStrip (s : String) : String :=
  ⟨((s.data.dropWhile Char.isWhitespace).reverse.dropWhile Char.isWhitespace).reverse⟩

/-- Python `str.lower()` (ASCII case folding, character by character). -/
def pyLower (s : String) : String :=
  ⟨s.data.map Char.toLower⟩

/-- The splitter of Python `s.split(',')`, accumulating the current part
in reverse. -/
def splitCommaGo : List Char → List Char → List (List Char)
  | [], acc => [acc.reverse]
  | c :: rest, acc =>
      if c = ',' then acc.reverse :: splitCommaGo rest []
      else splitCommaGo rest (c :: acc)

/-- Python `s.split(',')`. -/
def pySplitComma (s : String) : List String :=
  (splitCommaGo s.data []).map (fun l => ⟨l⟩)

/-- Occurrence test on character lists: `pat` occurs somewhere in `s`. -/
def containsSub (pat : List Char) : List Char → Bool
  | [] => pat.isEmpty
  | c :: rest => pat.isPrefixOf (c :: rest) || containsSub pat rest

/-- Python `pat in s` on strings. -/
def strContains (s pat : String) : Bool :=
  containsSub pat.data s.data

/-- `TrackInfo` from `src/base_music_service.py`: standardized track data
shared by all services.  `popularity` is `Optional[int]`. -/
structure Track where
  id : String
  name : String
  artist : String
  album : String
  uri : String
  external_url : String
  duration_ms : Nat
  explicit : Bool
  popularity : Option Nat
  genres : List String
deriving DecidableEq

/-- One value of the track-keyed usage store of `SpotifyCurator`
(`spotify_usage_history.json`): `count`, `first_used`, optional
`last_used`, plus the cached display fields. -/
structure SpotUsage where
  count : Nat
  firstUsed : ℚ
  lastUsed : Option ℚ
  trackName : String
  artist : String
deriving DecidableEq

/-- The Spotify usage-history store: a JSON object keyed by track id,
modelled as an association list in insertion order. -/
abbrev SpotHistory : Type := List (String × SpotUsage)

/-- Dictionary lookup `usage_history.get(track_id)` (first matching key). -/
def lookupUsage (h : SpotHistory) (id : String) : Option SpotUsage :=
  (List.find? (fun p => decide (p.1 = id)) h).map Prod.snd

/-- `usage_data.get('count', 0)` applied to an optional entry. -/
def usageCountOf : Option SpotUsage → Nat
  | none => 0
  | some u => u.count

/-- `track_usage.get('last_used')` applied to an optional entry. -/
def lastUsedOf : Option SpotUsage → Option ℚ
  | none => none
  | some u => u.lastUsed

/-- `usage count` of a track id in a history. -/
def countOf (h : SpotHistory) (id : String) : Nat :=
  usageCountOf (lookupUsage h id)

/-- Factor 1 of `SpotifyCurator._calculate_track_score`: tiered delta from
the cumulative usage count. -/
def countDelta (c : Nat) : ℚ :=
  if c = 0 then 80
  else if c = 1 then 40
  else if c = 2 then 15
  else if c = 3 then -20
  else -((c : ℚ) * 15)

/-- The list of artists of a track: `track.artist.split(',')`, each
stripped (`SpotifyCurator` handles multi-artist strings this way). -/
def trackArtistList (t : Track) : List String :=
  (pySplitComma t.artist).map pyStrip

/-- The artist set of a track (Python builds a `set` of the stripped
parts); duplicates removed, membership is all that is ever used. -/
def trackArtistSet (t : Track) : List String :=
  (trackArtistList t).dedup

/-- `artist_counts` built by `_smart_select_with_history`: every (stripped)
artist occurrence over the whole reference pool is counted. -/
def spotArtistCounts (pool : List Track) (a : String) : Nat :=
  ((pool.map trackArtistList).flatten).count a

/-- Factor 3 of `_calculate_track_score` for a single artist:
`artist_counts.get(artist, 1)` with the tiered bonus/penalty. -/
def artistDelta (counts : String → Nat) (a : String) : ℚ :=
  let f : Nat := if counts a = 0 then 1 else counts a
  if f = 1 then 15 else if f ≤ 3 then 8 else -5

/-- Factor 4: `if track.popularity: score += track.popularity * 0.1`.
A popularity of `0` is falsy in Python, hence contributes nothing. -/
def popDelta : Option Nat → ℚ
  | none => 0
  | some p => if p = 0 then 0 else (p : ℚ) / 10

/-- Factors 3–5 and the final clamp of `_calculate_track_score`, applied
to the running score after the usage/recency factors. -/
def spotifyFinish (counts : String → Nat) (t : Track) (jitter : ℚ) (s : ℚ) : ℚ :=
  let s3 := s + ((trackArtistList t).map (artistDelta counts)).sum + popDelta t.popularity
  max (s3 + jitter) (1 / 10)

/-- `SpotifyCurator._calculate_track_score` (src/services/spotify_curator.py,
lines 269–330).  `now` is the current time in seconds, `jitter` stands for
the `random.uniform(-3, 3)` draw.  A track whose `last_used` is less than
12 hours old short-circuits to the floor `0.1` before any later factor. -/
def spotifyScore (now : ℚ) (counts : String → Nat) (h : SpotHistory)
    (t : Track) (jitter : ℚ) : ℚ :=
  let u := lookupUsage h t.id
  let s1 : ℚ := 100 + countDelta (usageCountOf u)
  match lastUsedOf u with
  | some lu =>
      let hrs := (now - lu) / 3600
      if hrs < 12 then 1 / 10
      else
        let s2 :=
          if hrs < 24 then s1 - 80
          else if hrs < 72 then s1 - 50
          else if hrs < 168 then s1 - 25
          else s1 + min (hrs / 24 * 3) 50
        spotifyFinish counts t jitter s2
  | none => spotifyFinish counts t jitter (s1 + 30)

/-- The scored candidate list `track_scores` built by
`_smart_select_with_history` before sorting: one pair per reference track,
`jf` the per-track jitter draw. -/
def spotScored (now : ℚ) (counts : String → Nat) (h : SpotHistory)
    (jf : Track → ℚ) (pool : List Track) : List (Track × ℚ) :=
  pool.map (fun t => (t, spotifyScore now counts h t (jf t)))

/-- Pass 1 loop of `SpotifyCurator._smart_select_with_history` (lines
156–177): walk the score-sorted list, skip scores `< 5`, and accept a
track when its artist overlap with the already-used artist set is at most
1 or less than half the target is filled. -/
def spotPass1Go (target : Nat) : List (Track × ℚ) → List Track → List String → List Track
  | [], sel, _ => sel
  | (t, s) :: rest, sel, used =>
      if target ≤ sel.length then sel
      else if s < 5 then spotPass1Go target rest sel used
      else
        let tas := trackArtistSet t
        let overlap := (tas.filter (fun a => decide (a ∈ used))).length
        if overlap ≤ 1 ∨ sel.length < target / 2 then
          spotPass1Go target rest (sel ++ [t]) (used ++ tas.filter (fun a => decide (a ∉ used)))
        else spotPass1Go target rest sel used

/-- Pass 1 of the Spotify selector on a (sorted) scored list. -/
def spotPass1 (target : Nat) (scored : List (Track × ℚ)) : List Track :=
  spotPass1Go target scored [] []

/-- The recency/usage test of Pass 2 (lines 185–197): `hours_since_last`
defaults to infinity when there is no parseable `last_used`, so the test
`hours_since_last >= 12 or usage_count <= 2` then holds. -/
def spotPass2Ok (now : ℚ) (h : SpotHistory) (t : Track) : Bool :=
  match lastUsedOf (lookupUsage h t.id) with
  | none => true
  | some lu =>
      decide (12 ≤ (now - lu) / 3600) || decide (usageCountOf (lookupUsage h t.id) ≤ 2)

/-- `acceptable_tracks` of Pass 2 (lines 182–198): tracks of the scored
list not already selected, with score `> 10`, passing the recency test. -/
def spotPass2Acceptable (now : ℚ) (h : SpotHistory)
    (scored : List (Track × ℚ)) (sel : List Track) : List Track :=
  (scored.filter (fun p =>
      !(decide (p.1 ∈ sel)) && decide (10 < p.2) && spotPass2Ok now h p.1)).map Prod.fst

/-- Pass 1 followed by the Pass 2 relaxed fill (`selected_tracks` after
line 202): when Pass 1 is short, extend by the first
`target - |pass1|` acceptable tracks. -/
def spotPass12 (now : ℚ) (h : SpotHistory) (scored : List (Track × ℚ))
    (target : Nat) : List Track :=
  let sel1 := spotPass1 target scored
  if sel1.length < target then
    sel1 ++ (spotPass2Acceptable now h scored sel1).take (target - sel1.length)
  else sel1

/-- The selection state just before the discovery fallback (lines
204–225): the selector requests `needed = target - |selection|` fresh
tracks from the discovery engine exactly when the Pass 1 + Pass 2
selection is still short. -/
def spotSelectCore (now : ℚ) (h : SpotHistory) (scored : List (Track × ℚ))
    (target : Nat) : List Track × Option Nat :=
  let sel2 := spotPass12 now h scored target
  if sel2.length < target then (sel2, some (target - sel2.length)) else (sel2, none)

/-- `SpotifyCurator._update_usage_history` for a single selected track:
create the entry (count 0, `first_used = now`, no `last_used`) when the id
is unseen, then `count += 1` and `last_used = now`. -/
def mapEntry : SpotHistory → String → (SpotUsage → SpotUsage) → SpotHistory
  | [], _, _ => []
  | (k, u) :: rest, id, f =>
      if k = id then (k, f u) :: rest else (k, u) :: mapEntry rest id f

/-- One iteration of the `for track in selected_tracks` loop of
`_update_usage_history` (lines 336–346). -/
def spotRecordOne (now : ℚ) (h : SpotHistory) (t : Track) : SpotHistory :=
  let h1 :=
    if (lookupUsage h t.id).isSome then h
    else h ++ [(t.id,
      { count := 0, firstUsed := now, lastUsed := none
        trackName := t.name, artist := t.artist })]
  mapEntry h1 t.id (fun u => { u with count := u.count + 1, lastUsed := some now })

/-- `SpotifyCurator._update_usage_history` (lines 332–350): record every
selected track with the single timestamp `now` taken at entry. -/
def spotRecord (now : ℚ) (sel : List Track) (h : SpotHistory) : SpotHistory :=
  sel.foldl (spotRecordOne now) h

/-- `SpotifyCurator._save_usage_history` (lines 128–134): serializes the
in-memory history and writes it; the persisted state is the history
unchanged — no pruning of any kind happens on save. -/
def spotSaveUsageHistory (h : SpotHistory) : SpotHistory := h

/-- The serialized track entry stored inside a date bucket of
`youtube_usage_history.json` (`YouTubeCurator._update_usage_history`,
lines 339–347). -/
structure YtTrackRec where
  id : String
  name : String
  artist : String
  album : String
  uri : String
deriving DecidableEq

/-- One date bucket of the YouTube store: the tracks used that day, their
count and the full save timestamp. -/
structure DayBucket where
  tracks : List YtTrackRec
  track_count : Nat
  timestamp : ℚ
deriving DecidableEq

/-- The YouTube usage history: a JSON object keyed by calendar date.
Dates are modelled by their day number (the lexicographic order of
`YYYY-MM-DD` strings coincides with the chronological order); day `d`
starts at second `d * 86400`. -/
abbrev YtHistory : Type := List (Nat × DayBucket)

/-- The key list of a YouTube history (distinct for an actual JSON dict). -/
def ytKeys (h : YtHistory) : List Nat := h.map Prod.fst

/-- `history[date]` lookup (first matching key). -/
def ytLookup (h : YtHistory) (d : Nat) : Option DayBucket :=
  (List.find? (fun p => decide (p.1 = d)) h).map Prod.snd

/-- `track_data` serialization of a selection (lines 339–347). -/
def ytTrackData (sel : List Track) : List YtTrackRec :=
  sel.map (fun t =>
    { id := t.id, name := t.name, artist := t.artist, album := t.album, uri := t.uri })

/-- The bucket written for today by `_update_usage_history` (lines 350–354). -/
def mkBucket (sel : List Track) (now : ℚ) : DayBucket :=
  { tracks := ytTrackData sel, track_count := sel.length, timestamp := now }

/-- `history[today] = {...}`: replace the bucket of an existing key, or
append a new key. -/
def ytSetDay : YtHistory → Nat → DayBucket → YtHistory
  | [], d, b => [(d, b)]
  | (k, v) :: rest, d, b =>
      if k = d then (d, b) :: rest else (k, v) :: ytSetDay rest d b

/-- `sorted(history.keys(), reverse=True)` on day keys (a stable
descending sort, like Python's). -/
def sortDescNat (l : List Nat) : List Nat := l.insertionSort (· ≥ ·)

/-- The pruning step of `_update_usage_history` (lines 356–360): sort the
date keys newest-first and delete every key after the first 60.  The
cut is by bucket count, not by age. -/
def ytPruneHistory (h : YtHistory) : YtHistory :=
  let toDel := (sortDescNat (ytKeys h)).drop 60
  h.filter (fun p => !(decide (p.1 ∈ toDel)))

/-- `YouTubeCurator._update_usage_history` (lines 333–369): overwrite
today's bucket with the new selection, prune to the 60 newest buckets and
write the result. -/
def ytUpdateUsageHistory (sel : List Track) (h : YtHistory) (today : Nat)
    (now : ℚ) : YtHistory :=
  ytPruneHistory (ytSetDay h today (mkBucket sel now))

/-- The track-identity test of `YouTubeCurator._calculate_track_score`
(lines 248–259): match by id, or by equal nonempty lowercased names when
the artists agree or either artist is empty. -/
def ytTrackMatches (t : Track) (u : YtTrackRec) : Bool :=
  decide (u.id = t.id) ||
    (let tn := pyStrip (pyLower t.name)
     let ta := pyStrip (pyLower t.artist)
     let un := pyStrip (pyLower u.name)
     let ua := pyStrip (pyLower u.artist)
     !(decide (tn = "")) && !(decide (un = "")) && decide (tn = un) &&
       (decide (ta = ua) || decide (ta = "") || decide (ua = "")))

/-- `any` over the day bucket's track list. -/
def ytBucketHasTrack (t : Track) (b : DayBucket) : Bool :=
  b.tracks.any (ytTrackMatches t)

/-- The recency penalty tier of a bucket, from `days_ago`
(`(current_date - usage_date).days`, i.e. a floor that can be negative). -/
def ytBucketPenalty (daysAgo : ℤ) : ℚ :=
  if daysAgo = 0 then 1000
  else if daysAgo < 7 then 500
  else if daysAgo < 30 then 100
  else 25

/-- The history fold of `_calculate_track_score` (lines 239–276),
accumulating `(usage_penalty, recency_penalty, times_used)` in dict
order.  `usage_penalty += 50 * times_used` uses the running count. -/
def ytScoreFold (now : ℚ) (t : Track) : YtHistory → ℚ × ℚ × Nat → ℚ × ℚ × Nat
  | [], acc => acc
  | (d, b) :: rest, (up, rp, tu) =>
      if ytBucketHasTrack t b then
        let daysAgo : ℤ := ⌊(now - (d : ℚ) * 86400) / 86400⌋
        let tu1 := tu + 1
        ytScoreFold now t rest (up + 50 * (tu1 : ℚ), rp + ytBucketPenalty daysAgo, tu1)
      else ytScoreFold now t rest (up, rp, tu)

/-- `YouTubeCurator._calculate_track_score` (lines 223–291): base 100,
minus the accumulated penalties, plus the `random.uniform(-5, 5)` jitter,
clamped to a minimum of 1. -/
def ytScore (now : ℚ) (h : YtHistory) (t : Track) (jitter : ℚ) : ℚ :=
  let acc := ytScoreFold now t h (0, 0, 0)
  max (100 - acc.1 - acc.2.1 + jitter) 1

/-- `artist = track.artist if track.artist else 'Unknown'` of
`_ensure_artist_diversity`. -/
def ytArtistKey (t : Track) : String :=
  if t.artist = "" then "Unknown" else t.artist

/-- First pass of `YouTubeCurator._ensure_artist_diversity` (lines
299–308): accept a track while its artist's running count is below
`max_per_artist`, stopping once the target size is reached. -/
def ytPass1Go (maxPer target : Nat) :
    List (Track × ℚ) → List Track → (String → Nat) → List Track
  | [], sel, _ => sel
  | (t, _) :: rest, sel, cnt =>
      let a := ytArtistKey t
      if cnt a < maxPer then
        let sel1 := sel ++ [t]
        if target ≤ sel1.length then sel1
        else ytPass1Go maxPer target rest sel1
          (fun x => if x = a then cnt x + 1 else cnt x)
      else ytPass1Go maxPer target rest sel cnt

/-- Pass 1 of the YouTube diversity selection with the cap
`max(1, target_size // 10)`. -/
def ytPass1 (scored : List (Track × ℚ)) (target : Nat) : List Track :=
  ytPass1Go (max 1 (target / 10)) target scored [] (fun _ => 0)

/-- The second-pass fill loop of `_ensure_artist_diversity` (lines
315–318): append remaining tracks until the target size is reached. -/
def ytFillGo (target : Nat) : List Track → List Track → List Track
  | [], sel => sel
  | t :: rest, sel =>
      let sel1 := sel ++ [t]
      if target ≤ sel1.length then sel1 else ytFillGo target rest sel1

/-- `YouTubeCurator._ensure_artist_diversity` (lines 293–320).  `σ`
stands for the `random.shuffle` of the remaining tracks. -/
def ytEnsureArtistDiversity (scored : List (Track × ℚ)) (target : Nat)
    (σ : List Track → List Track) : List Track :=
  let sel := ytPass1 scored target
  if sel.length < target then
    ytFillGo target (σ ((scored.map Prod.fst).filter (fun t => !(decide (t ∈ sel))))) sel
  else sel

/-- `YouTubeCurator._smart_select_with_history` up to the discovery
decision (lines 147–198).  A pool no larger than the target is returned
unchanged at once.  Otherwise the diversity selection runs; when it
reaches the target, the top 70 % stays in order and the rest is shuffled
(`σm`; the Python cut `int(len(selected) * 0.7)` is computed in floating
point and can differ from `len * 7 / 10` by one on some lengths — no
theorem below depends on the cut).  Discovery is requested, with the
remaining deficit, exactly when the selection is short of the target and
a reference playlist id was supplied (`refGiven`). -/
def ytSelectCore (tracks : List Track) (scored : List (Track × ℚ)) (target : Nat)
    (σf σm : List Track → List Track) (refGiven : Bool) : List Track × Option Nat :=
  if tracks.length ≤ target then (tracks, none)
  else
    let sel := ytEnsureArtistDiversity scored target σf
    let sel2 :=
      if target ≤ sel.length then
        sel.take (sel.length * 7 / 10) ++ σm (sel.drop (sel.length * 7 / 10))
      else sel
    if sel2.length < target ∧ refGiven then (sel2, some (target - sel2.length))
    else (sel2, none)

/-- The `slow_words` blocklist of `SpotifyCurator._smart_select_with_history`
(lines 235–237). -/
def spotSlowWords : List String :=
  ["interview", "interlude", "ballad", "acoustic", "unplugged",
   "slow", "soft", "quiet", "gentle", "mellow", "calm", "peaceful",
   "silence", "whisper", "lullaby", "serenade", "tender"]

/-- `has_slow_words` test on a track name (line 244). -/
def hasSlowWords (t : Track) : Bool :=
  spotSlowWords.any (fun w => strContains (pyLower t.name) w)

/-- The `truly_fresh` accumulation loop of the Spotify discovery splice
(lines 239–254): walk the discovered tracks, keep the ones passing
`cond`, and stop right after the `needed`-th kept track. -/
def spotTrulyFreshGo (cond : Track → Bool) (needed : Nat) :
    List Track → List Track → List Track
  | [], acc => acc
  | t :: rest, acc =>
      if cond t then
        let acc1 := acc ++ [t]
        if needed ≤ acc1.length then acc1 else spotTrulyFreshGo cond needed rest acc1
      else spotTrulyFreshGo cond needed rest acc

/-- The full `truly_fresh` filter condition (lines 247–251): not in the
usage history, not a reference id, not a reference name, not already
selected, no slow keyword. -/
def spotTrulyFresh (h : SpotHistory) (refIds refNames : List String)
    (sel : List Track) (needed : Nat) (fresh : List Track) : List Track :=
  spotTrulyFreshGo (fun t =>
      !(decide (lookupUsage h t.id).isSome) &&
      !(decide (t.id ∈ refIds)) &&
      !(decide (pyLower t.name ∈ refNames)) &&
      !(decide (t ∈ sel)) &&
      !(hasSlowWords t)) needed fresh []

/-- `SpotifyCurator._smart_select_with_history` end to end (lines
136–267), with the discovery engine's answer passed in as `fresh` and
the final `random.shuffle` as `σ`: Pass 1 + Pass 2, splice of the
filtered fresh tracks when short, shuffle, truncate to the target. -/
def spotFullSelect (now : ℚ) (h : SpotHistory) (referenceTracks : List Track)
    (scored : List (Track × ℚ)) (target : Nat) (fresh : List Track)
    (σ : List Track → List Track) : List Track :=
  let sel2 := spotPass12 now h scored target
  let final :=
    if sel2.length < target then
      sel2 ++ spotTrulyFresh h (referenceTracks.map Track.id)
        (referenceTracks.map (fun t => pyLower t.name)) sel2 (target - sel2.length) fresh
    else sel2
  (σ final).take target

/-- The in-order id-deduplication of
`SpotifyDiscoveryEngine._discover_tracks` (lines 158–167): keep a track
only when its id is new.  There is no name-based deduplication here. -/
def spotDedupGo : List Track → List String → List Track
  | [], _ => []
  | t :: rest, seenIds =>
      if decide (t.id ∈ seenIds) then spotDedupGo rest seenIds
      else t :: spotDedupGo rest (t.id :: seenIds)

/-- `unique_tracks` of the Spotify combined discovery results. -/
def spotDedupUnique (l : List Track) : List Track := spotDedupGo l []

/-- The normalized name key of the YouTube deduplication:
`track.name.lower().strip()`. -/
def normName (t : Track) : String := pyStrip (pyLower t.name)

/-- `YouTubeDiscoveryEngine._deduplicate_tracks` loop (lines 368–388):
drop a track whose id was seen, else drop it when its normalized name was
seen, else keep it and remember both keys. -/
def ytDedupGo : List Track → List String → List String → List Track
  | [], _, _ => []
  | t :: rest, seenIds, seenNames =>
      if decide (t.id ∈ seenIds) then ytDedupGo rest seenIds seenNames
      else if decide (normName t ∈ seenNames) then ytDedupGo rest seenIds seenNames
      else t :: ytDedupGo rest (t.id :: seenIds) (normName t :: seenNames)

/-- `YouTubeDiscoveryEngine._deduplicate_tracks` (lines 368–388). -/
def ytDeduplicateTracks (l : List Track) : List Track := ytDedupGo l [] []

/-- The shape of the Spotify taste profile
(`SpotifyDiscoveryEngine.analyze_taste_profile`, lines 114–121); only the
shape matters for the claims, the contents come from external calls. -/
structure SpotProfile where
  genres : List String
  artists : List String
  known_track_ids : List String
  artists_analyzed : Nat
deriving DecidableEq

/-- `SpotifyDiscoveryEngine.analyze_taste_profile` (lines 55–124) at the
granularity of its control flow: an empty reference playlist raises
`ValueError("Reference playlist is empty or inaccessible")`; otherwise
the profile is assembled from external artist/genre lookups, abstracted
here as the continuation `rest`. -/
def spotifyAnalyzeTasteProfile (referenceTracks : List Track)
    (rest : List Track → SpotProfile) : Except String SpotProfile :=
  if referenceTracks.isEmpty then
    Except.error "Reference playlist is empty or inaccessible"
  else Except.ok (rest referenceTracks)

/-- The shape of the YouTube taste profile
(`YouTubeDiscoveryEngine.analyze_taste_profile`).  `taste_tokens` is
`none` when the key is absent from the returned dict — which is the case
in the empty-playlist branch (lines 137–143) but not in the exception
branch (line 205). -/
structure YtProfile where
  artists : List String
  genres : List String
  track_count : Nat
  known_track_ids : List String
  reference_track_names : List String
  taste_tokens : Option (List String)
deriving DecidableEq

/-- The profile returned for an empty reference playlist (lines 137–143):
all fields empty, and no `taste_tokens` key. -/
def ytEmptyProfile : YtProfile :=
  { artists := [], genres := [], track_count := 0, known_track_ids := []
    reference_track_names := [], taste_tokens := none }

/-- `YouTubeDiscoveryEngine.analyze_taste_profile` (lines 128–205) at the
granularity of its control flow: an empty reference playlist returns the
empty profile without raising; the non-empty analysis (external search
calls) is abstracted as the continuation `rest`. -/
def ytAnalyzeTasteProfile (referenceTracks : List Track)
    (rest : List Track → YtProfile) : YtProfile :=
  if referenceTracks.isEmpty then ytEmptyProfile
  else rest referenceTracks

/-- The profile returned by the exception handler of
`YouTubeDiscoveryEngine.analyze_taste_profile` (line 205) when the
reference playlist is unreachable: all fields empty, `taste_tokens`
present and empty. -/
def ytErrorProfile : YtProfile :=
  { artists := [], genres := [], track_count := 0, known_track_ids := []
    reference_track_names := [], taste_tokens := some [] }

/-! ## Lemmas about the scoring functions -/

theorem spotifyFinish_pos (counts : String → Nat) (t : Track) (j s : ℚ) :
    0 < spotifyFinish counts t j s := by
  unfold spotifyFinish
  exact lt_of_lt_of_le (by norm_num) (le_max_right _ _)

/-- **C7** — Score floor: for every track and every history state, both
scoring functions (`SpotifyCurator._calculate_track_score` and
`YouTubeCurator._calculate_track_score`) return a strictly positive
value: every branch ends in the `0.1` short-circuit, a clamp
`max(score, 0.1)`, or a clamp `max(score, 1.0)`. -/
theorem score_floor_positive (now : ℚ) (counts : String → Nat) (h : SpotHistory)
    (t : Track) (j : ℚ) (nowY : ℚ) (hY : YtHistory) (tY : Track) (jY : ℚ) :
    0 < spotifyScore now counts h t j ∧ 0 < ytScore nowY hY tY jY := by
  constructor
  · unfold spotifyScore
    dsimp only
    rcases hl : lastUsedOf (lookupUsage h t.id) with _ | lu <;> simp only [hl]
    · exact spotifyFinish_pos _ _ _ _
    · split
      · norm_num
      · exact spotifyFinish_pos _ _ _ _
  · unfold ytScore
    exact lt_of_lt_of_le (by norm_num) (le_max_right _ _)

/-! ## C3 — behaviour of the taste-profile analyzers on an empty reference -/

/-- Counterexample to **C3** as stated: the Spotify analyzer, given an
empty reference playlist, raises
`ValueError("Reference playlist is empty or inaccessible")` instead of
returning an empty profile. -/
theorem analyze_empty_counterexample :
    spotifyAnalyzeTasteProfile [] (fun _ => ⟨[], [], [], 0⟩) =
      Except.error "Reference playlist is empty or inaccessible" := rfl

/-- **C3** (amended) — For an empty reference playlist the YouTube
analyzer returns the empty profile (all fields empty/zero, the
`taste_tokens` key absent) and does not raise, while the Spotify analyzer
raises a `ValueError` instead of returning an empty profile. -/
theorem analyze_empty_amended (ts : List Track) (f : List Track → YtProfile)
    (g : List Track → SpotProfile) (hts : ts = []) :
    ytAnalyzeTasteProfile ts f = ytEmptyProfile ∧
    (ytAnalyzeTasteProfile ts f).artists = [] ∧
    (ytAnalyzeTasteProfile ts f).genres = [] ∧
    (ytAnalyzeTasteProfile ts f).track_count = 0 ∧
    (ytAnalyzeTasteProfile ts f).known_track_ids = [] ∧
    (ytAnalyzeTasteProfile ts f).reference_track_names = [] ∧
    (ytAnalyzeTasteProfile ts f).taste_tokens = none ∧
    spotifyAnalyzeTasteProfile ts g =
      Except.error "Reference playlist is empty or inaccessible" := by
  subst hts
  refine ⟨rfl, ?_, ?_, ?_, ?_, ?_, ?_, rfl⟩ <;> rfl

theorem analyze_empty_amended_witness :
    ytAnalyzeTasteProfile [] (fun _ => ytErrorProfile) = ytEmptyProfile ∧
    (ytAnalyzeTasteProfile [] (fun _ => ytErrorProfile)).artists = [] ∧
    (ytAnalyzeTasteProfile [] (fun _ => ytErrorProfile)).genres = [] ∧
    (ytAnalyzeTasteProfile [] (fun _ => ytErrorProfile)).track_count = 0 ∧
    (ytAnalyzeTasteProfile [] (fun _ => ytErrorProfile)).known_track_ids = [] ∧
    (ytAnalyzeTasteProfile [] (fun _ => ytErrorProfile)).reference_track_names = [] ∧
    (ytAnalyzeTasteProfile [] (fun _ => ytErrorProfile)).taste_tokens = none ∧
    spotifyAnalyzeTasteProfile [] (fun _ => ⟨["rock"], ["A"], ["i"], 1⟩) =
      Except.error "Reference playlist is empty or inaccessible" :=
  analyze_empty_amended [] (fun _ => ytErrorProfile) (fun _ => ⟨["rock"], ["A"], ["i"], 1⟩) rfl

/-! ## C4 — when the discovery fallback is requested -/

/-- A concrete track for the C4 counterexample. -/
def c4T1 : Track :=
  { id := "y1", name := "N1", artist := "A1", album := "", uri := "", external_url := ""
    duration_ms := 0, explicit := false, popularity := none, genres := [] }

/-- A second concrete track for the C4 counterexample. -/
def c4T2 : Track :=
  { id := "y2", name := "N2", artist := "A2", album := "", uri := "", external_url := ""
    duration_ms := 0, explicit := false, popularity := none, genres := [] }

/-- Counterexample to **C4** as stated: the YouTube selector, given a
reference pool of 2 tracks and target size 5 (pool smaller than the
target), returns the pool unchanged and never requests discovery —
`_smart_select_with_history` returns early when
`len(tracks) <= target_size`. -/
theorem discovery_trigger_counterexample :
    [c4T1, c4T2].length < 5 ∧
    ytSelectCore [c4T1, c4T2] [] 5 id id true = ([c4T1, c4T2], none) := by
  exact ⟨by decide, rfl⟩

/-- **C4** (amended) — The Spotify selector requests discovery exactly
when the Pass 1 + Pass 2 selection is smaller than the target, with
deficit `target − len(pass1+pass2)`, and returns that selection; the
YouTube selector instead returns the pool unchanged, with no discovery
request, whenever the pool is not larger than the target. -/
theorem discovery_trigger_amended (now : ℚ) (h : SpotHistory)
    (scored scoredY : List (Track × ℚ)) (target k : Nat) (tracks : List Track)
    (σf σm : List Track → List Track) (refGiven : Bool)
    (hyt : tracks.length ≤ target) :
    ((spotSelectCore now h scored target).2 = some k ↔
        (spotPass12 now h scored target).length < target ∧
        k = target - (spotPass12 now h scored target).length) ∧
    (spotSelectCore now h scored target).1 = spotPass12 now h scored target ∧
    ytSelectCore tracks scoredY target σf σm refGiven = (tracks, none) := by
  refine ⟨?_, ?_, ?_⟩
  · unfold spotSelectCore
    dsimp only
    split
    · rename_i hlt
      simp only [Option.some.injEq]
      constructor
      · intro hk
        exact ⟨hlt, hk.symm⟩
      · intro hk
        exact hk.2.symm
    · rename_i hge
      simp only [reduceCtorEq, false_iff, not_and]
      intro hlt
      exact absurd hlt hge
  · unfold spotSelectCore
    dsimp only
    split <;> rfl
  · unfold ytSelectCore
    rw [if_pos hyt]

theorem discovery_trigger_amended_witness :
    ((spotSelectCore 0 [] [] 3).2 = some 3 ↔
        (spotPass12 0 [] [] 3).length < 3 ∧ 3 = 3 - (spotPass12 0 [] [] 3).length) ∧
    (spotSelectCore 0 [] [] 3).1 = spotPass12 0 [] [] 3 ∧
    ytSelectCore [c4T1] [] 3 id id true = ([c4T1], none) :=
  discovery_trigger_amended 0 [] [] [] 3 3 [c4T1] id id true (by decide)

/-! ## C8 — deduplication of combined discovery results -/

theorem ytDedupGo_id_not_seen {l : List Track} :
    ∀ {si sn : List String} {t : Track}, t ∈ ytDedupGo l si sn → t.id ∉ si := by
  induction l with
  | nil => intro si sn t ht; simp [ytDedupGo] at ht
  | cons u rest ih =>
      intro si sn t ht
      rw [ytDedupGo] at ht
      split at ht
      · exact ih ht
      · split at ht
        · exact ih ht
        · rename_i hid _
          rcases List.mem_cons.mp ht with rfl | ht'
          · simpa using hid
          · have := ih ht'
            intro hmem
            exact this (List.mem_cons_of_mem _ hmem)

theorem ytDedupGo_name_not_seen {l : List Track} :
    ∀ {si sn : List String} {t : Track}, t ∈ ytDedupGo l si sn → normName t ∉ sn := by
  induction l with
  | nil => intro si sn t ht; simp [ytDedupGo] at ht
  | cons u rest ih =>
      intro si sn t ht
      rw [ytDedupGo] at ht
      split at ht
      · exact ih ht
      · split at ht
        · exact ih ht
        · rename_i hname
          rcases List.mem_cons.mp ht with rfl | ht'
          · simpa using hname
          · have := ih ht'
            intro hmem
            exact this (List.mem_cons_of_mem _ hmem)

theorem ytDedupGo_ids_nodup (l : List Track) :
    ∀ si sn : List String, ((ytDedupGo l si sn).map Track.id).Nodup := by
  induction l with
  | nil => intro si sn; simp [ytDedupGo]
  | cons u rest ih =>
      intro si sn
      rw [ytDedupGo]
      split
      · exact ih _ _
      · split
        · exact ih _ _
        · rw [List.map_cons, List.nodup_cons]
          refine ⟨?_, ih _ _⟩
          intro hmem
          rcases List.mem_map.mp hmem with ⟨t, ht, hid⟩
          exact ytDedupGo_id_not_seen ht (hid ▸ List.mem_cons_self _ _)

theorem ytDedupGo_names_nodup (l : List Track) :
    ∀ si sn : List String, ((ytDedupGo l si sn).map normName).Nodup := by
  induction l with
  | nil => intro si sn; simp [ytDedupGo]
  | cons u rest ih =>
      intro si sn
      rw [ytDedupGo]
      split
      · exact ih _ _
      · split
        · exact ih _ _
        · rw [List.map_cons, List.nodup_cons]
          refine ⟨?_, ih _ _⟩
          intro hmem
          rcases List.mem_map.mp hmem with ⟨t, ht, hn⟩
          exact ytDedupGo_name_not_seen ht (hn ▸ List.mem_cons_self _ _)

theorem ytDedupGo_sublist (l : List Track) :
    ∀ si sn : List String, (ytDedupGo l si sn).Sublist l := by
  induction l with
  | nil => intro si sn; simp [ytDedupGo]
  | cons u rest ih =>
      intro si sn
      rw [ytDedupGo]
      split
      · exact (ih _ _).cons _
      · split
        · exact (ih _ _).cons _
        · exact (ih _ _).cons₂ _

theorem spotDedupGo_id_not_seen {l : List Track} :
    ∀ {si : List String} {t : Track}, t ∈ spotDedupGo l si → t.id ∉ si := by
  induction l with
  | nil => intro si t ht; simp [spotDedupGo] at ht
  | cons u rest ih =>
      intro si t ht
      rw [spotDedupGo] at ht
      split at ht
      · exact ih ht
      · rename_i hid
        rcases List.mem_cons.mp ht with rfl | ht'
        · simpa using hid
        · have := ih ht'
          intro hmem
          exact this (List.mem_cons_of_mem _ hmem)

theorem spotDedupGo_ids_nodup (l : List Track) :
    ∀ si : List String, ((spotDedupGo l si).map Track.id).Nodup := by
  induction l with
  | nil => intro si; simp [spotDedupGo]
  | cons u rest ih =>
      intro si
      rw [spotDedupGo]
      split
      · exact ih _
      · rw [List.map_cons, List.nodup_cons]
        refine ⟨?_, ih _⟩
        intro hmem
        rcases List.mem_map.mp hmem with ⟨t, ht, hid⟩
        exact spotDedupGo_id_not_seen ht (hid ▸ List.mem_cons_self _ _)

theorem spotDedupGo_sublist (l : List Track) :
    ∀ si : List String, (spotDedupGo l si).Sublist l := by
  induction l with
  | nil => intro si; simp [spotDedupGo]
  | cons u rest ih =>
      intro si
      rw [spotDedupGo]
      split
      · exact (ih _).cons _
      · exact (ih _).cons₂ _

/-- A concrete discovery result for the C8 counterexample. -/
def dupeA : Track :=
  { id := "ida", name := "song", artist := "X", album := "", uri := "", external_url := ""
    duration_ms := 0, explicit := false, popularity := none, genres := [] }

/-- A second discovery result with a distinct id but the same name. -/
def dupeB : Track :=
  { id := "idb", name := "song", artist := "Y", album := "", uri := "", external_url := ""
    duration_ms := 0, explicit := false, popularity := none, genres := [] }

/-- Counterexample to **C8** as stated: the Spotify combined-results
deduplication (`_discover_tracks`, lines 158–167) checks track ids only,
so two tracks with distinct ids but the same normalized lowercase name
both survive. -/
theorem dedup_counterexample :
    spotDedupUnique [dupeA, dupeB] = [dupeA, dupeB] ∧
    normName dupeA = normName dupeB ∧
    ¬ (((spotDedupUnique [dupeA, dupeB]).map normName).Nodup) := by
  refine ⟨rfl, rfl, ?_⟩
  intro hnd
  rw [show spotDedupUnique [dupeA, dupeB] = [dupeA, dupeB] from rfl] at hnd
  simp only [List.map_cons, List.map_nil, List.nodup_cons, List.mem_cons,
    List.not_mem_nil, or_false, List.mem_singleton] at hnd
  exact hnd.1 rfl

/-- **C8** (amended) — The YouTube deduplication removes duplicates by
track id first and then by normalized lowercase name, preserving
first-occurrence order (its output is a subsequence of the input with
pairwise-distinct ids and pairwise-distinct normalized names); the
Spotify combined-results deduplication removes duplicates by track id
only, preserving first-occurrence order, and keeps same-name tracks with
distinct ids. -/
theorem dedup_amended (l l2 : List Track) :
    ((ytDeduplicateTracks l).map Track.id).Nodup ∧
    ((ytDeduplicateTracks l).map normName).Nodup ∧
    (ytDeduplicateTracks l).Sublist l ∧
    ((spotDedupUnique l2).map Track.id).Nodup ∧
    (spotDedupUnique l2).Sublist l2 :=
  ⟨ytDedupGo_ids_nodup l [] [], ytDedupGo_names_nodup l [] [],
   ytDedupGo_sublist l [] [], spotDedupGo_ids_nodup l2 [], spotDedupGo_sublist l2 []⟩

/-! ## C5 — record semantics of the track-keyed usage store -/

theorem lookupUsage_nil (id : String) : lookupUsage [] id = none := rfl

theorem lookupUsage_cons (k : String) (u : SpotUsage) (rest : SpotHistory) (id : String) :
    lookupUsage ((k, u) :: rest) id = if k = id then some u else lookupUsage rest id := by
  by_cases hk : k = id
  · rw [if_pos hk]
    unfold lookupUsage
    rw [List.find?_cons_of_pos _ (by simpa using hk)]
    rfl
  · rw [if_neg hk]
    unfold lookupUsage
    rw [List.find?_cons_of_neg _ (by simpa using hk)]

theorem lookup_mapEntry_eq (h : SpotHistory) (id : String) (f : SpotUsage → SpotUsage) :
    lookupUsage (mapEntry h id f) id = (lookupUsage h id).map f := by
  induction h with
  | nil => rfl
  | cons p rest ih =>
      obtain ⟨k, u⟩ := p
      by_cases hk : k = id
      · subst hk
        rw [mapEntry, if_pos rfl, lookupUsage_cons, if_pos rfl, lookupUsage_cons, if_pos rfl]
        rfl
      · rw [mapEntry, if_neg hk, lookupUsage_cons, if_neg hk, lookupUsage_cons, if_neg hk]
        exact ih

theorem lookup_mapEntry_ne (h : SpotHistory) (id id' : String) (f : SpotUsage → SpotUsage)
    (hne : id' ≠ id) :
    lookupUsage (mapEntry h id f) id' = lookupUsage h id' := by
  induction h with
  | nil => rfl
  | cons p rest ih =>
      obtain ⟨k, u⟩ := p
      by_cases hk : k = id
      · subst hk
        have hk' : ¬ k = id' := fun hh => hne hh.symm
        rw [mapEntry, if_pos rfl, lookupUsage_cons, if_neg hk', lookupUsage_cons, if_neg hk']
      · rw [mapEntry, if_neg hk, lookupUsage_cons, lookupUsage_cons]
        by_cases hk' : k = id'
        · rw [if_pos hk', if_pos hk']
        · rw [if_neg hk', if_neg hk']
          exact ih

theorem lookup_append_single_eq (h : SpotHistory) (id : String) (u : SpotUsage)
    (habs : lookupUsage h id = none) :
    lookupUsage (h ++ [(id, u)]) id = some u := by
  induction h with
  | nil => simp [lookupUsage_cons]
  | cons p rest ih =>
      obtain ⟨k, v⟩ := p
      rw [lookupUsage_cons] at habs
      by_cases hk : k = id
      · rw [if_pos hk] at habs
        cases habs
      · rw [if_neg hk] at habs
        rw [List.cons_append, lookupUsage_cons, if_neg hk]
        exact ih habs

theorem lookup_append_single_ne (h : SpotHistory) (id : String) (u : SpotUsage)
    (id' : String) (hne : id' ≠ id) :
    lookupUsage (h ++ [(id, u)]) id' = lookupUsage h id' := by
  induction h with
  | nil =>
      rw [List.nil_append, lookupUsage_cons, if_neg (fun hh => hne hh.symm)]
  | cons p rest ih =>
      obtain ⟨k, v⟩ := p
      rw [List.cons_append, lookupUsage_cons, lookupUsage_cons]
      by_cases hk : k = id'
      · rw [if_pos hk, if_pos hk]
      · rw [if_neg hk, if_neg hk]
        exact ih

/-- Complete characterization of one record step: the entry of `tid` after
`spotRecordOne` — incremented and restamped when `x.id = tid` (created
first when absent), untouched otherwise. -/
theorem spotRecordOne_lookup (now : ℚ) (h : SpotHistory) (x : Track) (tid : String) :
    lookupUsage (spotRecordOne now h x) tid =
      if x.id = tid then
        match lookupUsage h tid with
        | some u => some { u with count := u.count + 1, lastUsed := some now }
        | none => some { count := 1, firstUsed := now, lastUsed := some now,
                         trackName := x.name, artist := x.artist }
      else lookupUsage h tid := by
  by_cases hx : x.id = tid
  · subst hx
    rw [if_pos rfl]
    cases hu : lookupUsage h x.id with
    | some u =>
        unfold spotRecordOne
        rw [hu]
        simp only [Option.isSome_some, if_pos]
        rw [lookup_mapEntry_eq, hu]
        rfl
    | none =>
        unfold spotRecordOne
        rw [hu]
        simp only [Option.isSome_none, Bool.false_eq_true, if_neg, if_false]
        rw [lookup_mapEntry_eq, lookup_append_single_eq h x.id _ hu]
        rfl
  · rw [if_neg hx]
    have hne : tid ≠ x.id := fun h => hx h.symm
    unfold spotRecordOne
    by_cases hu : (lookupUsage h x.id).isSome
    · rw [if_pos hu, lookup_mapEntry_ne _ _ _ _ hne]
    · rw [if_neg hu, lookup_mapEntry_ne _ _ _ _ hne,
        lookup_append_single_ne _ _ _ _ hne]

theorem countOf_spotRecordOne (now : ℚ) (h : SpotHistory) (x : Track) (tid : String) :
    countOf (spotRecordOne now h x) tid =
      countOf h tid + (if x.id = tid then 1 else 0) := by
  unfold countOf
  rw [spotRecordOne_lookup]
  by_cases hx : x.id = tid
  · rw [if_pos hx, if_pos hx]
    cases lookupUsage h tid <;> rfl
  · rw [if_neg hx, if_neg hx, Nat.add_zero]

theorem countOf_spotRecord (now : ℚ) (sel : List Track) (h : SpotHistory) (tid : String) :
    countOf (spotRecord now sel h) tid =
      countOf h tid + (sel.filter (fun x => decide (x.id = tid))).length := by
  induction sel generalizing h with
  | nil => simp [spotRecord]
  | cons x rest ih =>
      show countOf (spotRecord now rest (spotRecordOne now h x)) tid = _
      rw [ih, countOf_spotRecordOne]
      by_cases hx : x.id = tid
      · simp [hx, List.filter]
        omega
      · simp [List.filter, hx]

theorem lastUsed_pres (now : ℚ) (h : SpotHistory) (x : Track) (tid : String)
    (hl : lastUsedOf (lookupUsage h tid) = some now) :
    lastUsedOf (lookupUsage (spotRecordOne now h x) tid) = some now := by
  rw [spotRecordOne_lookup]
  by_cases hx : x.id = tid
  · rw [if_pos hx]
    cases lookupUsage h tid <;> rfl
  · rw [if_neg hx]
    exact hl

theorem lastUsed_pres_record (now : ℚ) (sel : List Track) (h : SpotHistory) (tid : String)
    (hl : lastUsedOf (lookupUsage h tid) = some now) :
    lastUsedOf (lookupUsage (spotRecord now sel h) tid) = some now := by
  induction sel generalizing h with
  | nil => exact hl
  | cons x rest ih =>
      exact ih (spotRecordOne now h x) (lastUsed_pres now h x tid hl)

theorem lastUsed_spotRecord (now : ℚ) (sel : List Track) (h : SpotHistory) (t : Track)
    (hmem : t ∈ sel) :
    lastUsedOf (lookupUsage (spotRecord now sel h) t.id) = some now := by
  induction sel generalizing h with
  | nil => cases hmem
  | cons x rest ih =>
      by_cases hx : x.id = t.id
      · show lastUsedOf (lookupUsage (spotRecord now rest (spotRecordOne now h x)) t.id) = _
        apply lastUsed_pres_record
        rw [spotRecordOne_lookup, if_pos hx]
        cases lookupUsage h t.id <;> rfl
      · rcases List.mem_cons.mp hmem with rfl | hmem'
        · exact absurd rfl hx
        · exact ih (spotRecordOne now h x) hmem'

theorem firstUsed_pres (now : ℚ) (h : SpotHistory) (x : Track) (tid : String)
    (hf : ∃ u, lookupUsage h tid = some u ∧ u.firstUsed = now) :
    ∃ u, lookupUsage (spotRecordOne now h x) tid = some u ∧ u.firstUsed = now := by
  obtain ⟨u, hu, hfu⟩ := hf
  rw [spotRecordOne_lookup]
  by_cases hx : x.id = tid
  · rw [if_pos hx, hu]
    exact ⟨_, rfl, hfu⟩
  · rw [if_neg hx]
    exact ⟨u, hu, hfu⟩

theorem firstUsed_pres_record (now : ℚ) (sel : List Track) (h : SpotHistory) (tid : String)
    (hf : ∃ u, lookupUsage h tid = some u ∧ u.firstUsed = now) :
    ∃ u, lookupUsage (spotRecord now sel h) tid = some u ∧ u.firstUsed = now := by
  induction sel generalizing h with
  | nil => exact hf
  | cons x rest ih =>
      exact ih (spotRecordOne now h x) (firstUsed_pres now h x tid hf)

theorem firstUsed_spotRecord (now : ℚ) (sel : List Track) (h : SpotHistory) (t : Track)
    (hmem : t ∈ sel) (habs : lookupUsage h t.id = none) :
    ∃ u, lookupUsage (spotRecord now sel h) t.id = some u ∧ u.firstUsed = now := by
  induction sel generalizing h with
  | nil => cases hmem
  | cons x rest ih =>
      by_cases hx : x.id = t.id
      · show ∃ u, lookupUsage (spotRecord now rest (spotRecordOne now h x)) t.id = some u ∧ _
        apply firstUsed_pres_record
        rw [spotRecordOne_lookup, if_pos hx, habs]
        exact ⟨_, rfl, rfl⟩
      · rcases List.mem_cons.mp hmem with rfl | hmem'
        · exact absurd rfl hx
        · have habs' : lookupUsage (spotRecordOne now h x) t.id = none := by
            rw [spotRecordOne_lookup, if_neg hx]
            exact habs
          exact ih (spotRecordOne now h x) hmem' habs'

/-- **C5** — Record semantics (`SpotifyCurator._update_usage_history`,
shared with `EnhancedCurator._update_usage_history`): a record operation
adds exactly one to the count of a track id per selected occurrence,
stamps `last_used = now` for every selected track, creates unseen entries
with `first_used = now`, composes additively over two runs (so recording
the same track twice adds exactly 2), and never decreases a count. -/
theorem record_semantics (now now2 : ℚ) (sel sel2 : List Track) (h : SpotHistory)
    (t : Track) (tid : String) (hmem : t ∈ sel) :
    countOf (spotRecord now sel h) tid
        = countOf h tid + (sel.filter (fun x => decide (x.id = tid))).length ∧
    lastUsedOf (lookupUsage (spotRecord now sel h) t.id) = some now ∧
    (lookupUsage h t.id = none →
      ∃ u, lookupUsage (spotRecord now sel h) t.id = some u ∧ u.firstUsed = now) ∧
    countOf (spotRecord now2 sel2 (spotRecord now sel h)) tid
        = countOf h tid + (sel.filter (fun x => decide (x.id = tid))).length
          + (sel2.filter (fun x => decide (x.id = tid))).length ∧
    countOf h tid ≤ countOf (spotRecord now sel h) tid := by
  refine ⟨countOf_spotRecord now sel h tid, lastUsed_spotRecord now sel h t hmem,
    fun habs => firstUsed_spotRecord now sel h t hmem habs, ?_, ?_⟩
  · rw [countOf_spotRecord, countOf_spotRecord]
  · rw [countOf_spotRecord]
    exact Nat.le_add_right _ _

/-- A concrete selected track for the C5 witness. -/
def recTrack : Track :=
  { id := "rid", name := "RSong", artist := "RArtist", album := "", uri := ""
    external_url := "", duration_ms := 0, explicit := false, popularity := none
    genres := [] }

theorem record_semantics_witness :
    countOf (spotRecord 5 [recTrack] []) "rid"
        = countOf [] "rid" + (([recTrack].filter (fun x => decide (x.id = "rid"))).length) ∧
    lastUsedOf (lookupUsage (spotRecord 5 [recTrack] []) recTrack.id) = some 5 ∧
    (lookupUsage [] recTrack.id = none →
      ∃ u, lookupUsage (spotRecord 5 [recTrack] []) recTrack.id = some u ∧ u.firstUsed = 5) ∧
    countOf (spotRecord 7 [recTrack] (spotRecord 5 [recTrack] [])) "rid"
        = countOf [] "rid" + (([recTrack].filter (fun x => decide (x.id = "rid"))).length)
          + (([recTrack].filter (fun x => decide (x.id = "rid"))).length) ∧
    countOf [] "rid" ≤ countOf (spotRecord 5 [recTrack] []) "rid" :=
  record_semantics 5 7 [recTrack] [recTrack] [] recTrack "rid" (List.mem_singleton.mpr rfl)

/-! ## C6 — the per-artist cap in Pass 1 -/

theorem ytPass1Go_count (maxPer target : Nat) (a : String) :
    ∀ (l : List (Track × ℚ)) (sel : List Track) (cnt : String → Nat),
      (sel.map ytArtistKey).count a = cnt a → cnt a ≤ maxPer →
      ((ytPass1Go maxPer target l sel cnt).map ytArtistKey).count a ≤ maxPer := by
  intro l
  induction l with
  | nil =>
      intro sel cnt hc hle
      rw [ytPass1Go, hc]
      exact hle
  | cons p rest ih =>
      intro sel cnt hc hle
      obtain ⟨t, s⟩ := p
      rw [ytPass1Go]
      dsimp only
      split
      · rename_i hlt
        split
        · rw [List.map_append, List.count_append, hc]
          by_cases hk : a = ytArtistKey t
          · have hca : cnt a < maxPer := by rw [hk]; exact hlt
            simp [List.count_cons, hk]
            omega
          · simp [List.count_cons, hk]
            exact hle
        · apply ih
          · rw [List.map_append, List.count_append, hc]
            by_cases hk : a = ytArtistKey t
            · simp [List.count_cons, hk]
            · simp [List.count_cons, hk]
          · by_cases hk : a = ytArtistKey t
            · have hca : cnt a < maxPer := by rw [hk]; exact hlt
              simpa [hk] using hca
            · simpa [hk] using hle
      · exact ih sel cnt hc hle

/-- **C6** (amended) — In the YouTube selector's Pass 1
(`_ensure_artist_diversity`, first loop) no artist key is accepted more
than `max(1, target_size // 10)` times, for every scored candidate list;
the Spotify selector's Pass 1 enforces no such per-artist cap (see the
counterexample). -/
theorem yt_pass1_artist_cap (scored : List (Track × ℚ)) (target : Nat) (a : String) :
    ((ytPass1 scored target).map ytArtistKey).count a ≤ max 1 (target / 10) :=
  ytPass1Go_count (max 1 (target / 10)) target a scored [] (fun _ => 0) rfl (Nat.zero_le _)

/-- Tracks by one artist for the C6 counterexample. -/
def capT1 : Track :=
  { id := "c1", name := "S1", artist := "A", album := "", uri := "", external_url := ""
    duration_ms := 0, explicit := false, popularity := none, genres := [] }

/-- Second track by the same artist. -/
def capT2 : Track :=
  { id := "c2", name := "S2", artist := "A", album := "", uri := "", external_url := ""
    duration_ms := 0, explicit := false, popularity := none, genres := [] }

/-- Third track by the same artist. -/
def capT3 : Track :=
  { id := "c3", name := "S3", artist := "A", album := "", uri := "", external_url := ""
    duration_ms := 0, explicit := false, popularity := none, genres := [] }

/-- Fourth track by the same artist. -/
def capT4 : Track :=
  { id := "c4", name := "S4", artist := "A", album := "", uri := "", external_url := ""
    duration_ms := 0, explicit := false, popularity := none, genres := [] }

/-- The reference pool of the C6 counterexample: four tracks by artist
`"A"`, never used before. -/
def capPool : List Track := [capT1, capT2, capT3, capT4]

/-- The scored list the Spotify selector builds for `capPool` with empty
history and zero jitter (all scores are equal, so the list is already
sorted descending). -/
def capScored : List (Track × ℚ) :=
  spotScored 0 (spotArtistCounts capPool) [] (fun _ => 0) capPool

unseal Rat.add Rat.sub Rat.mul Rat.inv in
/-- Counterexample to **C6** as stated: with target size 30 the cap is
`max(1, 30 // 10) = 3`, yet the Spotify selector's Pass 1 accepts all
four tracks of artist `"A"` from its own (descending-sorted) scored list
— during the first half of the target it ignores artist overlap
entirely. -/
theorem artist_cap_counterexample :
    List.Pairwise (fun p q : Track × ℚ => q.2 ≤ p.2) capScored ∧
    max 1 (30 / 10) = 3 ∧
    ((spotPass1 30 capScored).map Track.artist).count "A" = 4 := by
  refine ⟨by decide, by decide, by decide⟩

/-! ## C1 — the 12-hour recency hard block -/

theorem spotPass1Go_mem {target : Nat} :
    ∀ {l : List (Track × ℚ)} {sel : List Track} {used : List String} {t : Track},
      t ∈ spotPass1Go target l sel used →
      t ∈ sel ∨ ∃ s, (t, s) ∈ l ∧ ¬ s < 5 := by
  intro l
  induction l with
  | nil =>
      intro sel used t ht
      rw [spotPass1Go] at ht
      exact Or.inl ht
  | cons p rest ih =>
      intro sel used t ht
      obtain ⟨tp, sp⟩ := p
      rw [spotPass1Go] at ht
      split at ht
      · exact Or.inl ht
      · split at ht
        · rcases ih ht with hsel | ⟨s, hs, h5⟩
          · exact Or.inl hsel
          · exact Or.inr ⟨s, List.mem_cons_of_mem _ hs, h5⟩
        · rename_i h5top
          dsimp only at ht
          split at ht
          · rcases ih ht with hsel | ⟨s, hs, h5⟩
            · rcases List.mem_append.mp hsel with hsel' | hone
              · exact Or.inl hsel'
              · rw [List.mem_singleton] at hone
                subst hone
                exact Or.inr ⟨sp, List.mem_cons_self _ _, h5top⟩
            · exact Or.inr ⟨s, List.mem_cons_of_mem _ hs, h5⟩
          · rcases ih ht with hsel | ⟨s, hs, h5⟩
            · exact Or.inl hsel
            · exact Or.inr ⟨s, List.mem_cons_of_mem _ hs, h5⟩

theorem spotPass2Acceptable_mem {now : ℚ} {h : SpotHistory}
    {scored : List (Track × ℚ)} {sel : List Track} {t : Track}
    (ht : t ∈ spotPass2Acceptable now h scored sel) :
    ∃ s, (t, s) ∈ scored ∧ t ∉ sel ∧ 10 < s := by
  rcases List.mem_map.mp ht with ⟨⟨t', s⟩, hmem, rfl⟩
  rcases List.mem_filter.mp hmem with ⟨hs, hcond⟩
  simp only [Bool.and_eq_true, Bool.not_eq_true', decide_eq_false_iff_not,
    decide_eq_true_eq] at hcond
  exact ⟨s, hs, hcond.1.1, hcond.1.2⟩

/-- **C1** — Recency hard block: a track whose usage-history entry was
last used less than 12 hours before `now` scores exactly the floor `0.1`
(for every jitter draw — the short-circuit happens before the jitter),
and it is selected neither by Pass 1 (which skips scores `< 5`) nor by
the Pass 1 + Pass 2 relaxed fill (whose Pass 2 requires scores `> 10`),
for any descending-sorted reordering of the selector's scored list. -/
theorem recency_block (now : ℚ) (counts : String → Nat) (h : SpotHistory)
    (t : Track) (u : SpotUsage) (lu j : ℚ) (jf : Track → ℚ)
    (pool : List Track) (sortedScored : List (Track × ℚ)) (target : Nat)
    (hu : lookupUsage h t.id = some u) (hl : u.lastUsed = some lu)
    (hrec : (now - lu) / 3600 < 12)
    (hperm : sortedScored.Perm (spotScored now counts h jf pool)) :
    spotifyScore now counts h t j = 1 / 10 ∧
    t ∉ spotPass1 target sortedScored ∧
    t ∉ spotPass12 now h sortedScored target := by
  have hscore : ∀ j' : ℚ, spotifyScore now counts h t j' = 1 / 10 := by
    intro j'
    unfold spotifyScore
    rw [hu]
    show (match lastUsedOf (some u) with
      | some lu => _
      | none => _) = (1 : ℚ) / 10
    rw [show lastUsedOf (some u) = some lu from by rw [lastUsedOf, hl]]
    dsimp only
    rw [if_pos hrec]
  have hmemscore : ∀ s : ℚ, (t, s) ∈ sortedScored → s = 1 / 10 := by
    intro s hs
    have hs' := hperm.mem_iff.mp hs
    rcases List.mem_map.mp hs' with ⟨t', _, heq⟩
    have ht' : t' = t := congrArg Prod.fst heq
    have hseq : spotifyScore now counts h t' (jf t') = s := congrArg Prod.snd heq
    rw [ht', hscore (jf t)] at hseq
    exact hseq.symm
  have hp1 : t ∉ spotPass1 target sortedScored := by
    intro hmem
    rcases spotPass1Go_mem hmem with hsel | ⟨s, hs, h5⟩
    · cases hsel
    · rw [hmemscore s hs] at h5
      exact h5 (by norm_num)
  refine ⟨hscore j, hp1, ?_⟩
  intro hmem
  rw [spotPass12] at hmem
  split at hmem
  · rcases List.mem_append.mp hmem with h1 | h2
    · exact hp1 h1
    · have h2' := List.mem_of_mem_take h2
      rcases spotPass2Acceptable_mem h2' with ⟨s, hs, _, h10⟩
      rw [hmemscore s hs] at h10
      norm_num at h10
  · exact hp1 hmem

/-- The blocked track of the C1 witness. -/
def blockTrack : Track :=
  { id := "b1", name := "Blocked", artist := "B", album := "", uri := "", external_url := ""
    duration_ms := 0, explicit := false, popularity := none, genres := [] }

/-- Its usage record: used once, one hour ago. -/
def blockRec : SpotUsage :=
  { count := 1, firstUsed := 0, lastUsed := some 0, trackName := "Blocked", artist := "B" }

/-- The usage history of the C1 witness. -/
def blockHist : SpotHistory := [("b1", blockRec)]

unseal Rat.add Rat.sub Rat.mul Rat.inv in
theorem recency_block_witness :
    spotifyScore 3600 (spotArtistCounts [blockTrack]) blockHist blockTrack 2 = 1 / 10 ∧
    blockTrack ∉ spotPass1 30
      (spotScored 3600 (spotArtistCounts [blockTrack]) blockHist (fun _ => 0) [blockTrack]) ∧
    blockTrack ∉ spotPass12 3600 blockHist
      (spotScored 3600 (spotArtistCounts [blockTrack]) blockHist (fun _ => 0) [blockTrack]) 30 :=
  recency_block 3600 (spotArtistCounts [blockTrack]) blockHist blockTrack blockRec 0 2
    (fun _ => 0) [blockTrack]
    (spotScored 3600 (spotArtistCounts [blockTrack]) blockHist (fun _ => 0) [blockTrack]) 30
    (by decide) rfl (by decide) (List.Perm.refl _)

/-! ## C2 / C9 — save-time pruning and the date-keyed store -/

theorem ytLookup_nil (d : Nat) : ytLookup [] d = none := rfl

theorem ytLookup_cons (k : Nat) (v : DayBucket) (rest : YtHistory) (d : Nat) :
    ytLookup ((k, v) :: rest) d = if k = d then some v else ytLookup rest d := by
  by_cases hk : k = d
  · rw [if_pos hk]
    unfold ytLookup
    rw [List.find?_cons_of_pos _ (by simpa using hk)]
    rfl
  · rw [if_neg hk]
    unfold ytLookup
    rw [List.find?_cons_of_neg _ (by simpa using hk)]

theorem ytLookup_filterNotMem (h : YtHistory) (del : List Nat) (d : Nat) :
    ytLookup (h.filter (fun p => !(decide (p.1 ∈ del)))) d =
      if d ∈ del then none else ytLookup h d := by
  induction h with
  | nil => by_cases hd : d ∈ del <;> simp [hd, ytLookup_nil]
  | cons p rest ih =>
      obtain ⟨k, v⟩ := p
      rw [List.filter_cons]
      by_cases hk : k = d
      · subst hk
        by_cases hd : k ∈ del
        · simp [hd, ih]
        · simp [hd, ytLookup_cons]
      · by_cases hd : k ∈ del
        · simp [hd, ih, ytLookup_cons, hk]
        · simp [hd, ytLookup_cons, hk, ih]

theorem ytLookup_mem {h : YtHistory} {d : Nat} {b : DayBucket}
    (hl : ytLookup h d = some b) : d ∈ ytKeys h := by
  induction h with
  | nil => cases hl
  | cons p rest ih =>
      obtain ⟨k, v⟩ := p
      rw [ytLookup_cons] at hl
      by_cases hk : k = d
      · exact hk ▸ List.mem_cons_self _ _
      · rw [if_neg hk] at hl
        exact List.mem_cons_of_mem _ (ih hl)

/-- The newest key never falls into the deleted tail of the
newest-first sort: the tail starts after 60 strictly newer keys. -/
theorem notMem_drop60 (l : List Nat) (d : Nat)
    (hmax : ∀ k ∈ l, k ≤ d) (hcount : l.count d ≤ 1) :
    d ∉ (sortDescNat l).drop 60 := by
  intro hd
  have hperm : List.Perm (sortDescNat l) l := List.perm_insertionSort _ l
  have hsort : (sortDescNat l).Sorted (· ≥ ·) := List.sorted_insertionSort _ l
  have hsplit : (sortDescNat l).take 60 ++ (sortDescNat l).drop 60 = sortDescNat l :=
    List.take_append_drop _ _
  have hcross : ∀ y ∈ (sortDescNat l).take 60, ∀ z ∈ (sortDescNat l).drop 60, y ≥ z := by
    have hpw : List.Pairwise (· ≥ ·) ((sortDescNat l).take 60 ++ (sortDescNat l).drop 60) := by
      rw [hsplit]; exact hsort
    exact (List.pairwise_append.mp hpw).2.2
  have hlen : 60 < (sortDescNat l).length := by
    by_contra hle
    push_neg at hle
    rw [List.drop_eq_nil_of_le hle] at hd
    cases hd
  have htake_all : ∀ y ∈ (sortDescNat l).take 60, d = y := by
    intro y hy
    have h1 : y ≥ d := hcross y hy d hd
    have h2 : y ≤ d := hmax y (hperm.mem_iff.mp (List.mem_of_mem_take hy))
    omega
  have hctake : ((sortDescNat l).take 60).count d = 60 := by
    rw [List.count_eq_length.mpr htake_all, List.length_take]
    omega
  have hcdrop : 0 < ((sortDescNat l).drop 60).count d := List.count_pos_iff.mpr hd
  have hcs : (sortDescNat l).count d = l.count d := hperm.count_eq d
  have : (sortDescNat l).count d =
      ((sortDescNat l).take 60).count d + ((sortDescNat l).drop 60).count d := by
    rw [← List.count_append, hsplit]
  omega

theorem ytPrune_sublist (h : YtHistory) : (ytPruneHistory h).Sublist h :=
  List.filter_sublist _

theorem sortDescNat_perm (l : List Nat) : List.Perm (sortDescNat l) l :=
  List.perm_insertionSort _ l

theorem ytPrune_small (h : YtHistory) (hlen : h.length ≤ 60) : ytPruneHistory h = h := by
  unfold ytPruneHistory
  dsimp only
  have hnil : (sortDescNat (ytKeys h)).drop 60 = [] := by
    apply List.drop_eq_nil_of_le
    rw [(sortDescNat_perm _).length_eq]
    simpa [ytKeys] using hlen
  rw [hnil]
  apply List.filter_eq_self.mpr
  intro p _
  simp

theorem ytPrune_lookup (h : YtHistory) (d : Nat) (hnd : (ytKeys h).Nodup)
    (hmax : ∀ k ∈ ytKeys h, k ≤ d) :
    ytLookup (ytPruneHistory h) d = ytLookup h d := by
  unfold ytPruneHistory
  dsimp only
  rw [ytLookup_filterNotMem,
    if_neg (notMem_drop60 (ytKeys h) d hmax (List.nodup_iff_count_le_one.mp hnd d))]

theorem ytSetDay_lookup_self (h : YtHistory) (d : Nat) (b : DayBucket) :
    ytLookup (ytSetDay h d b) d = some b := by
  induction h with
  | nil => rw [ytSetDay, ytLookup_cons, if_pos rfl]
  | cons p rest ih =>
      obtain ⟨k, v⟩ := p
      rw [ytSetDay]
      by_cases hk : k = d
      · rw [if_pos hk, ytLookup_cons, if_pos rfl]
      · rw [if_neg hk, ytLookup_cons, if_neg hk]
        exact ih

theorem ytKeys_setDay (h : YtHistory) (d : Nat) (b : DayBucket) :
    ytKeys (ytSetDay h d b) = if d ∈ ytKeys h then ytKeys h else ytKeys h ++ [d] := by
  induction h with
  | nil => simp [ytSetDay, ytKeys]
  | cons p rest ih =>
      obtain ⟨k, v⟩ := p
      rw [ytSetDay]
      by_cases hk : k = d
      · subst hk
        rw [if_pos rfl,
          if_pos (show k ∈ ytKeys ((k, v) :: rest) from List.mem_cons_self _ _)]
        rfl
      · have hne : ¬ d = k := fun hh => hk hh.symm
        rw [if_neg hk]
        show k :: ytKeys (ytSetDay rest d b) = _
        rw [ih]
        by_cases hd : d ∈ ytKeys rest
        · rw [if_pos hd,
            if_pos (show d ∈ ytKeys ((k, v) :: rest) from List.mem_cons_of_mem _ hd)]
          rfl
        · have hd' : d ∉ ytKeys ((k, v) :: rest) := by
            intro hmem
            rcases List.mem_cons.mp hmem with h1 | h1
            · exact hne h1
            · exact hd h1
          rw [if_neg hd, if_neg hd']
          rfl

theorem ytKeys_setDay_nodup (h : YtHistory) (d : Nat) (b : DayBucket)
    (hnd : (ytKeys h).Nodup) : (ytKeys (ytSetDay h d b)).Nodup := by
  rw [ytKeys_setDay]
  by_cases hd : d ∈ ytKeys h
  · rw [if_pos hd]; exact hnd
  · rw [if_neg hd]
    exact List.Nodup.append hnd (List.nodup_singleton d)
      (by intro x hx hx'; rw [List.mem_singleton] at hx'; exact hd (hx' ▸ hx))

theorem ytKeys_setDay_le (h : YtHistory) (d : Nat) (b : DayBucket)
    (hmax : ∀ k ∈ ytKeys h, k ≤ d) : ∀ k ∈ ytKeys (ytSetDay h d b), k ≤ d := by
  rw [ytKeys_setDay]
  by_cases hd : d ∈ ytKeys h
  · rw [if_pos hd]; exact hmax
  · rw [if_neg hd]
    intro k hk
    rcases List.mem_append.mp hk with hk' | hk'
    · exact hmax k hk'
    · rw [List.mem_singleton] at hk'
      exact hk'.le

theorem ytKeys_prune_sublist (h : YtHistory) :
    (ytKeys (ytPruneHistory h)).Sublist (ytKeys h) :=
  (ytPrune_sublist h).map Prod.fst

/-- The persisted state after one `_update_usage_history`: lookup of
`today` succeeds with the fresh bucket, keys stay distinct and bounded by
`today`. -/
theorem ytUpdate_state (sel : List Track) (h : YtHistory) (today : Nat) (now : ℚ)
    (hnd : (ytKeys h).Nodup) (hle : ∀ k ∈ ytKeys h, k ≤ today) :
    ytLookup (ytUpdateUsageHistory sel h today now) today = some (mkBucket sel now) ∧
    (ytKeys (ytUpdateUsageHistory sel h today now)).Nodup ∧
    (∀ k ∈ ytKeys (ytUpdateUsageHistory sel h today now), k ≤ today) := by
  have hnd' := ytKeys_setDay_nodup h today (mkBucket sel now) hnd
  have hle' := ytKeys_setDay_le h today (mkBucket sel now) hle
  refine ⟨?_, ?_, ?_⟩
  · unfold ytUpdateUsageHistory
    rw [ytPrune_lookup _ _ hnd' hle', ytSetDay_lookup_self]
  · exact hnd'.sublist (ytKeys_prune_sublist _)
  · intro k hk
    exact hle' k ((ytKeys_prune_sublist _).subset hk)

/-- **C9** — Same-day record overwrite in the date-keyed YouTube store:
two record operations on the same calendar day leave exactly one bucket
for that day, holding precisely the second call's serialized tracks and
`track_count` (with its timestamp); the first call's bucket is replaced
wholesale. -/
theorem same_day_overwrite (sel1 sel2 : List Track) (h : YtHistory) (today : Nat)
    (n1 n2 : ℚ) (hnd : (ytKeys h).Nodup) (hle : ∀ k ∈ ytKeys h, k ≤ today) :
    ytLookup (ytUpdateUsageHistory sel2 (ytUpdateUsageHistory sel1 h today n1) today n2)
        today = some (mkBucket sel2 n2) ∧
    (mkBucket sel2 n2).tracks = ytTrackData sel2 ∧
    (mkBucket sel2 n2).track_count = sel2.length ∧
    (ytKeys (ytUpdateUsageHistory sel2 (ytUpdateUsageHistory sel1 h today n1) today n2)).count
        today = 1 := by
  obtain ⟨hl1, hnd1, hle1⟩ := ytUpdate_state sel1 h today n1 hnd hle
  obtain ⟨hl2, hnd2, hle2⟩ := ytUpdate_state sel2 _ today n2 hnd1 hle1
  refine ⟨hl2, rfl, rfl, ?_⟩
  have hmem : today ∈ ytKeys (ytUpdateUsageHistory sel2
      (ytUpdateUsageHistory sel1 h today n1) today n2) := ytLookup_mem hl2
  have hcle := List.nodup_iff_count_le_one.mp hnd2 today
  have hcge := List.count_pos_iff.mpr hmem
  omega

/-- A track for the first C9 run. -/
def c9T1 : Track :=
  { id := "v1", name := "V1", artist := "VA", album := "", uri := "", external_url := ""
    duration_ms := 0, explicit := false, popularity := none, genres := [] }

/-- A track for the second C9 run. -/
def c9T2 : Track :=
  { id := "v2", name := "V2", artist := "VB", album := "", uri := "", external_url := ""
    duration_ms := 0, explicit := false, popularity := none, genres := [] }

theorem same_day_overwrite_witness :
    ytLookup (ytUpdateUsageHistory [c9T2] (ytUpdateUsageHistory [c9T1] [] 10 1) 10 2) 10
        = some (mkBucket [c9T2] 2) ∧
    (mkBucket [c9T2] 2).tracks = ytTrackData [c9T2] ∧
    (mkBucket [c9T2] 2).track_count = [c9T2].length ∧
    (ytKeys (ytUpdateUsageHistory [c9T2]
        (ytUpdateUsageHistory [c9T1] [] 10 1) 10 2)).count 10 = 1 :=
  same_day_overwrite [c9T1] [c9T2] [] 10 1 2 (by decide) (by decide)

/-- Keys deleted by the YouTube pruning have at least 60 strictly greater
keys: the cut keeps the 60 newest buckets, whatever their age. -/
theorem prune_deleted_many (h : YtHistory) (p : Nat × DayBucket)
    (hnd : (ytKeys h).Nodup) (hp : p ∈ h) (hnp : p ∉ ytPruneHistory h) :
    60 ≤ ((ytKeys h).filter (fun k => decide (p.1 < k))).length := by
  have hdel : p.1 ∈ (sortDescNat (ytKeys h)).drop 60 := by
    by_contra hdel
    exact hnp (List.mem_filter.mpr ⟨hp, by simpa using hdel⟩)
  have hperm : List.Perm (sortDescNat (ytKeys h)) (ytKeys h) := sortDescNat_perm _
  have hsnd : (sortDescNat (ytKeys h)).Nodup := hperm.nodup_iff.mpr hnd
  have hsort : (sortDescNat (ytKeys h)).Sorted (· ≥ ·) := List.sorted_insertionSort _ _
  have hsplit : (sortDescNat (ytKeys h)).take 60 ++ (sortDescNat (ytKeys h)).drop 60 =
      sortDescNat (ytKeys h) := List.take_append_drop _ _
  have hnd2 : ((sortDescNat (ytKeys h)).take 60 ++ (sortDescNat (ytKeys h)).drop 60).Nodup := by
    rw [hsplit]; exact hsnd
  have hdisj := (List.nodup_append.mp hnd2).2.2
  have hcross : ∀ y ∈ (sortDescNat (ytKeys h)).take 60,
      ∀ z ∈ (sortDescNat (ytKeys h)).drop 60, y ≥ z := by
    have hpw : List.Pairwise (· ≥ ·)
        ((sortDescNat (ytKeys h)).take 60 ++ (sortDescNat (ytKeys h)).drop 60) := by
      rw [hsplit]; exact hsort
    exact (List.pairwise_append.mp hpw).2.2
  have hlen : 60 < (sortDescNat (ytKeys h)).length := by
    by_contra hle
    push_neg at hle
    rw [List.drop_eq_nil_of_le hle] at hdel
    cases hdel
  have htake_len : ((sortDescNat (ytKeys h)).take 60).length = 60 := by
    rw [List.length_take]
    omega
  have hsubset : (sortDescNat (ytKeys h)).take 60 ⊆
      (ytKeys h).filter (fun k => decide (p.1 < k)) := by
    intro y hy
    have hge : y ≥ p.1 := hcross y hy p.1 hdel
    have hne : y ≠ p.1 := by
      intro heq
      exact hdisj hy (heq ▸ hdel)
    have hkeys : y ∈ ytKeys h := hperm.mem_iff.mp (List.mem_of_mem_take hy)
    refine List.mem_filter.mpr ⟨hkeys, ?_⟩
    simp only [decide_eq_true_eq]
    omega
  have htake_nd : ((sortDescNat (ytKeys h)).take 60).Nodup :=
    hsnd.sublist (List.take_sublist _ _)
  have hle := (List.subperm_of_subset htake_nd hsubset).length_le
  omega

/-- **C2** (amended) — Saving performs no age-based pruning: the Spotify
store's save writes the history unchanged (every record survives
verbatim, however old), and the YouTube store's save keeps date buckets
verbatim, deleting nothing when there are at most 60 buckets and
otherwise deleting exactly the buckets with at least 60 strictly newer
date keys (the 60 newest buckets survive, whatever their age). -/
theorem pruning_amended (hs : SpotHistory) (h : YtHistory) (p : Nat × DayBucket)
    (hnd : (ytKeys h).Nodup) (hp : p ∈ h) (hnp : p ∉ ytPruneHistory h) :
    spotSaveUsageHistory hs = hs ∧
    (ytPruneHistory h).Sublist h ∧
    (h.length ≤ 60 → ytPruneHistory h = h) ∧
    60 ≤ ((ytKeys h).filter (fun k => decide (p.1 < k))).length :=
  ⟨rfl, ytPrune_sublist h, ytPrune_small h, prune_deleted_many h p hnd hp hnp⟩

/-- A 61-day YouTube history (days 0–60, one empty bucket each). -/
def h61 : YtHistory := (List.range 61).map (fun i => (i, mkBucket [] 0))

/-- The oldest bucket of `h61`, the one the pruning deletes. -/
def p61 : Nat × DayBucket := (0, mkBucket [] 0)

theorem pruning_amended_witness :
    spotSaveUsageHistory [] = ([] : SpotHistory) ∧
    (ytPruneHistory h61).Sublist h61 ∧
    (h61.length ≤ 60 → ytPruneHistory h61 = h61) ∧
    60 ≤ ((ytKeys h61).filter (fun k => decide (p61.1 < k))).length :=
  pruning_amended [] h61 p61 (by decide) (by decide) (by decide)

/-- An ancient usage record: last used at time 0. -/
def oldRec : SpotUsage :=
  { count := 1, firstUsed := 0, lastUsed := some 0
    trackName := "Old Song", artist := "Old Artist" }

/-- A Spotify history holding only the ancient record. -/
def oldHist : SpotHistory := [("t1", oldRec)]

unseal Rat.add Rat.sub Rat.mul Rat.inv in
/-- Counterexample to **C2** as stated: at a save happening 100 days
after `oldRec`'s last use — far beyond every retention window of 60–90
days — `SpotifyCurator._save_usage_history` writes the record back
verbatim instead of removing it. -/
theorem pruning_counterexample :
    spotSaveUsageHistory oldHist = oldHist ∧
    lookupUsage (spotSaveUsageHistory oldHist) "t1" = some oldRec ∧
    oldRec.lastUsed = some 0 ∧
    ((8640000 : ℚ) - 0) / 86400 = 100 ∧ (90 : ℚ) < 100 :=
  ⟨rfl, by decide, rfl, by decide, by decide⟩

/-! ## C10 — the selector never emits a track twice -/

theorem spotPass1Go_append {target : Nat} :
    ∀ (l : List (Track × ℚ)) (sel : List Track) (used : List String),
      ∃ r, spotPass1Go target l sel used = sel ++ r ∧ r.Sublist (l.map Prod.fst) := by
  intro l
  induction l with
  | nil =>
      intro sel used
      exact ⟨[], by rw [spotPass1Go, List.append_nil], List.nil_sublist _⟩
  | cons p rest ih =>
      intro sel used
      obtain ⟨tp, sp⟩ := p
      rw [spotPass1Go]
      split
      · exact ⟨[], by rw [List.append_nil], List.nil_sublist _⟩
      · split
        · obtain ⟨r, hr, hsub⟩ := ih sel used
          exact ⟨r, hr, hsub.cons _⟩
        · dsimp only
          split
          · obtain ⟨r, hr, hsub⟩ := ih (sel ++ [tp]) _
            exact ⟨tp :: r, by rw [hr, List.append_assoc]; rfl, hsub.cons₂ _⟩
          · obtain ⟨r, hr, hsub⟩ := ih sel used
            exact ⟨r, hr, hsub.cons _⟩

theorem ytPass1Go_append {maxPer target : Nat} :
    ∀ (l : List (Track × ℚ)) (sel : List Track) (cnt : String → Nat),
      ∃ r, ytPass1Go maxPer target l sel cnt = sel ++ r ∧ r.Sublist (l.map Prod.fst) := by
  intro l
  induction l with
  | nil =>
      intro sel cnt
      exact ⟨[], by rw [ytPass1Go, List.append_nil], List.nil_sublist _⟩
  | cons p rest ih =>
      intro sel cnt
      obtain ⟨tp, sp⟩ := p
      rw [ytPass1Go]
      dsimp only
      split
      · split
        · exact ⟨[tp], rfl, (List.nil_sublist _).cons₂ _⟩
        · obtain ⟨r, hr, hsub⟩ := ih (sel ++ [tp]) _
          exact ⟨tp :: r, by rw [hr, List.append_assoc]; rfl, hsub.cons₂ _⟩
      · obtain ⟨r, hr, hsub⟩ := ih sel cnt
        exact ⟨r, hr, hsub.cons _⟩

theorem ytFillGo_append {target : Nat} :
    ∀ (l : List Track) (sel : List Track),
      ∃ r, ytFillGo target l sel = sel ++ r ∧ r.Sublist l := by
  intro l
  induction l with
  | nil =>
      intro sel
      exact ⟨[], by rw [ytFillGo, List.append_nil], List.nil_sublist _⟩
  | cons t rest ih =>
      intro sel
      rw [ytFillGo]
      split
      · exact ⟨[t], rfl, (List.nil_sublist _).cons₂ _⟩
      · obtain ⟨r, hr, hsub⟩ := ih (sel ++ [t])
        exact ⟨t :: r, by rw [hr, List.append_assoc]; rfl, hsub.cons₂ _⟩

theorem spotTrulyFreshGo_spec {cond : Track → Bool} {needed : Nat} :
    ∀ (l : List Track) (acc : List Track),
      ∃ r, spotTrulyFreshGo cond needed l acc = acc ++ r ∧ r.Sublist l ∧
        ∀ t ∈ r, cond t = true := by
  intro l
  induction l with
  | nil =>
      intro acc
      exact ⟨[], by rw [spotTrulyFreshGo, List.append_nil], List.nil_sublist _, by simp⟩
  | cons t rest ih =>
      intro acc
      rw [spotTrulyFreshGo]
      split
      · rename_i hcond
        dsimp only
        split
        · refine ⟨[t], rfl, (List.nil_sublist _).cons₂ _, ?_⟩
          intro x hx
          rw [List.mem_singleton] at hx
          exact hx ▸ hcond
        · obtain ⟨r, hr, hsub, hall⟩ := ih (acc ++ [t])
          refine ⟨t :: r, by rw [hr, List.append_assoc]; rfl, hsub.cons₂ _, ?_⟩
          intro x hx
          rcases List.mem_cons.mp hx with rfl | hx'
          · exact hcond
          · exact hall x hx'
      · obtain ⟨r, hr, hsub, hall⟩ := ih acc
        exact ⟨r, hr, hsub.cons _, hall⟩

theorem spotPass1_nodup {target : Nat} {scored : List (Track × ℚ)}
    (hnd : (scored.map Prod.fst).Nodup) : (spotPass1 target scored).Nodup := by
  obtain ⟨r, hr, hsub⟩ := spotPass1Go_append scored [] []
  rw [spotPass1, hr, List.nil_append]
  exact hnd.sublist hsub

theorem spotPass2Acceptable_props {now : ℚ} {h : SpotHistory}
    {scored : List (Track × ℚ)} {sel : List Track} :
    ((spotPass2Acceptable now h scored sel).Sublist (scored.map Prod.fst)) ∧
    ∀ t ∈ spotPass2Acceptable now h scored sel, t ∉ sel := by
  constructor
  · exact (List.filter_sublist _).map _
  · intro t ht
    rcases spotPass2Acceptable_mem ht with ⟨_, _, hnot, _⟩
    exact hnot

theorem spotPass12_nodup {now : ℚ} {h : SpotHistory} {scored : List (Track × ℚ)}
    {target : Nat} (hnd : (scored.map Prod.fst).Nodup) :
    (spotPass12 now h scored target).Nodup := by
  rw [spotPass12]
  split
  · have h1 := @spotPass1_nodup target scored hnd
    have h2 : (spotPass2Acceptable now h scored (spotPass1 target scored)).Nodup :=
      hnd.sublist spotPass2Acceptable_props.1
    refine List.Nodup.append h1 (h2.sublist (List.take_sublist _ _)) ?_
    intro t ht1 ht2
    exact spotPass2Acceptable_props.2 t (List.mem_of_mem_take ht2) ht1
  · exact spotPass1_nodup hnd

theorem spotTrulyFresh_props {h : SpotHistory} {refIds refNames : List String}
    {sel : List Track} {needed : Nat} {fresh : List Track} :
    (spotTrulyFresh h refIds refNames sel needed fresh).Sublist fresh ∧
    ∀ t ∈ spotTrulyFresh h refIds refNames sel needed fresh, t ∉ sel := by
  obtain ⟨r, hr, hsub, hall⟩ := @spotTrulyFreshGo_spec (fun t =>
      !(decide (lookupUsage h t.id).isSome) &&
      !(decide (t.id ∈ refIds)) &&
      !(decide (pyLower t.name ∈ refNames)) &&
      !(decide (t ∈ sel)) &&
      !(hasSlowWords t)) needed fresh []
  rw [spotTrulyFresh, hr, List.nil_append]
  refine ⟨hsub, ?_⟩
  intro t ht
  have := hall t ht
  simp only [Bool.and_eq_true, Bool.not_eq_true', decide_eq_false_iff_not] at this
  exact this.1.2

/-- **C10** — No duplicate tracks in the selection: with pairwise-distinct
candidates (and discovery results with pairwise-distinct ids, as the
discovery deduplication guarantees), the Spotify selector's full output —
Pass 1, Pass 2 relaxed fill, discovery splice, shuffle, truncation — has
no track twice, and neither has the YouTube diversity selection, for any
permutations `σ`, `σf` standing for the random shuffles. -/
theorem no_duplicate_selection (now : ℚ) (h : SpotHistory)
    (referenceTracks : List Track) (scored scoredY : List (Track × ℚ))
    (target targetY : Nat) (fresh : List Track) (σ σf : List Track → List Track)
    (hσ : ∀ l : List Track, List.Perm (σ l) l)
    (hσf : ∀ l : List Track, List.Perm (σf l) l)
    (hnd : (scored.map Prod.fst).Nodup)
    (hndY : (scoredY.map Prod.fst).Nodup)
    (hfresh : (fresh.map Track.id).Nodup) :
    (spotFullSelect now h referenceTracks scored target fresh σ).Nodup ∧
    (ytEnsureArtistDiversity scoredY targetY σf).Nodup := by
  constructor
  · have hsel2 := @spotPass12_nodup now h scored target hnd
    have hfreshNd : fresh.Nodup := hfresh.of_map
    rw [spotFullSelect]
    have hfinal : (if (spotPass12 now h scored target).length < target then
        spotPass12 now h scored target ++
          spotTrulyFresh h (referenceTracks.map Track.id)
            (referenceTracks.map (fun t => pyLower t.name))
            (spotPass12 now h scored target) (target - (spotPass12 now h scored target).length)
            fresh
      else spotPass12 now h scored target).Nodup := by
      split
      · refine List.Nodup.append hsel2 (hfreshNd.sublist spotTrulyFresh_props.1) ?_
        intro t ht1 ht2
        exact spotTrulyFresh_props.2 t ht2 ht1
      · exact hsel2
    exact (((hσ _).nodup_iff).mpr hfinal).sublist (List.take_sublist _ _)
  · rw [ytEnsureArtistDiversity]
    have hp1 : (ytPass1 scoredY targetY).Nodup := by
      obtain ⟨r, hr, hsub⟩ := ytPass1Go_append scoredY [] (fun _ => 0)
      rw [ytPass1, hr, List.nil_append]
      exact hndY.sublist hsub
    split
    · obtain ⟨r, hr, hsub⟩ := ytFillGo_append
        (σf ((scoredY.map Prod.fst).filter
          (fun t => !(decide (t ∈ ytPass1 scoredY targetY))))) (ytPass1 scoredY targetY)
      rw [hr]
      have hremNd : ((scoredY.map Prod.fst).filter
          (fun t => !(decide (t ∈ ytPass1 scoredY targetY)))).Nodup :=
        hndY.sublist (List.filter_sublist _)
      have hrNd : r.Nodup := (((hσf _).nodup_iff).mpr hremNd).sublist hsub
      refine List.Nodup.append hp1 hrNd ?_
      intro t ht1 ht2
      have ht3 := hsub.subset ht2
      have ht4 := (hσf _).mem_iff.mp ht3
      rcases List.mem_filter.mp ht4 with ⟨_, hcond⟩
      simp only [Bool.not_eq_true', decide_eq_false_iff_not] at hcond
      exact hcond ht1
    · exact hp1

/-- First candidate of the C10 witness. -/
def w1 : Track :=
  { id := "w1", name := "W1", artist := "WA", album := "", uri := "", external_url := ""
    duration_ms := 0, explicit := false, popularity := none, genres := [] }

/-- Second candidate of the C10 witness. -/
def w2 : Track :=
  { id := "w2", name := "W2", artist := "WB", album := "", uri := "", external_url := ""
    duration_ms := 0, explicit := false, popularity := none, genres := [] }

/-- A discovery result for the C10 witness. -/
def w3 : Track :=
  { id := "w3", name := "W3", artist := "WC", album := "", uri := "", external_url := ""
    duration_ms := 0, explicit := false, popularity := none, genres := [] }

theorem no_duplicate_selection_witness :
    (spotFullSelect 0 [] [] [(w1, 50), (w2, 50)] 2 [w3] id).Nodup ∧
    (ytEnsureArtistDiversity [(w1, 50), (w2, 50)] 2 id).Nodup :=
  no_duplicate_selection 0 [] [] [(w1, 50), (w2, 50)] [(w1, 50), (w2, 50)] 2 2 [w3] id id
    (fun l => List.Perm.refl l) (fun l => List.Perm.refl l)
    (by decide) (by decide) (by decide)
